import Mathlib

/-!
Shallow embedding of the Hindi morphology analyzer
(source: src/hindi_morph_analyzer.py, class HindiMorphAnalyzer).

Python strings are sequences of Unicode code points; they are embedded as
lists of Lean characters (`Str := List Char`).  Python dicts preserve
insertion order, so each rule table is embedded as an association list in
insertion order, with lookup returning the first matching key.  Feature
dicts (the values of affix rules, of lexicon entries, and of the stored
exception records' sub-fields) are association lists from feature name to
feature value.  Fallible Python operations (indexing a possibly-empty
string) are embedded with `Option`, `none` standing for a raised exception.
-/

namespace HindiMorph

/-- A Python string: a sequence of Unicode code points. -/
abbrev Str := List Char

/-- An open feature mapping (Python dict of string keys to string values),
kept in insertion order. -/
abbrev Features := List (String × String)

/-- First-match association-list lookup, the embedding of a Python dict
read (`d[k]` after a `k in d` test, or `d.get(k)`); tables built from
Python dicts have pairwise distinct keys, so first-match agrees with the
dict semantics. -/
def alookup {α : Type} : List (Str × α) → Str → Option α
  | [], _ => none
  | (k, v) :: rest, key => if k = key then some v else alookup rest key

/-- Python slice `w[:-n]` (used as `word[:-len(suffix)]`): for `n = 0` the
slice is `w[:0] = ""`, otherwise the first `len w - n` characters. -/
def pySliceToNeg (w : Str) (n : Nat) : Str :=
  if n = 0 then [] else w.take (w.length - n)

/-- Insert a key-value pair into a list sorted by descending key length,
after every entry of strictly greater key length (so before entries of
equal length that came later in the original order). -/
def insertByLenDesc (p : Str × Features) : List (Str × Features) → List (Str × Features)
  | [] => [p]
  | q :: qs =>
    if p.1.length < q.1.length then q :: insertByLenDesc p qs else p :: q :: qs

/-- Stable sort of a rule table by descending key length: the embedding of
Python `sorted(rules.keys(), key=len, reverse=True)` (CPython sort is
stable, so equal-length keys keep insertion order), paired with the value
each key maps to. -/
def sortByLenDesc : List (Str × Features) → List (Str × Features)
  | [] => []
  | p :: ps => insertByLenDesc p (sortByLenDesc ps)

/-- A Hindi root-word lexicon: root spelling to lexical metadata. -/
abbrev Dictionary := List (Str × Features)

/-- The root-plausibility test of `extract_suffix` / `extract_prefix`
(line `if potential_root in self.dictionary or len(potential_root) >= 2`).
Lengths are code-point counts, as in Python `len`. -/
def acceptRoot (dict : Dictionary) (root : Str) : Bool :=
  (alookup dict root).isSome || root.length ≥ 2

/-- Whether a suffix-rule entry matches the word and yields a plausible
root: the guard of the accepting branch in the `extract_suffix` loop. -/
def suffixAccepts (dict : Dictionary) (word : Str) (p : Str × Features) : Bool :=
  p.1.isSuffixOf word && acceptRoot dict (pySliceToNeg word p.1.length)

/-- Whether a prefix-rule entry matches the word and yields a plausible
root: the guard of the accepting branch in the `extract_prefix` loop. -/
def pfxAccepts (dict : Dictionary) (word : Str) (p : Str × Features) : Bool :=
  p.1.isPrefixOf word && acceptRoot dict (word.drop p.1.length)

/-- The `for suffix in sorted_suffixes` loop of `extract_suffix`: return
the first entry (longest first) whose key is a suffix of the word and
whose candidate root passes the plausibility test. -/
def findSuffix (dict : Dictionary) (word : Str) :
    List (Str × Features) → Option (Str × Str × Features)
  | [] => none
  | (s, f) :: rest =>
    if s.isSuffixOf word then
      let potential_root := pySliceToNeg word s.length
      if acceptRoot dict potential_root then some (potential_root, s, f)
      else findSuffix dict word rest
    else findSuffix dict word rest

/-- The `for prefix in sorted_prefixes` loop of `extract_prefix`. -/
def findPfx (dict : Dictionary) (word : Str) :
    List (Str × Features) → Option (Str × Str × Features)
  | [] => none
  | (s, f) :: rest =>
    if s.isPrefixOf word then
      let potential_root := word.drop s.length
      if acceptRoot dict potential_root then some (potential_root, s, f)
      else findPfx dict word rest
    else findPfx dict word rest

/-- `HindiMorphAnalyzer.extract_suffix`: returns `(root, suffix, features)`,
falling back to `(word, "", {})` when no rule matches acceptably. -/
def extract_suffix (rules : List (Str × Features)) (dict : Dictionary) (word : Str) :
    Str × Str × Features :=
  match findSuffix dict word (sortByLenDesc rules) with
  | some r => r
  | none => (word, [], [])

/-- `HindiMorphAnalyzer.extract_prefix` (named `extractPfx` here): returns
`(root, prefix, features)`, falling back to `(word, "", {})`. -/
def extractPfx (rules : List (Str × Features)) (dict : Dictionary) (word : Str) :
    Str × Str × Features :=
  match findPfx dict word (sortByLenDesc rules) with
  | some r => r
  | none => (word, [], [])

/-- Sandhi (junction) rules: a 2-code-point junction string to its
replacement string. -/
abbrev SandhiRules := List (Str × Str)

/-- The dynamic return type of `apply_sandhi_rules`: the early
`return parts` branch yields the input list of strings, the fold yields a
single string. -/
inductive PyStrOrList where
  | lst : List Str → PyStrOrList
  | str : Str → PyStrOrList
deriving DecidableEq, Repr

/-- One iteration of the `apply_sandhi_rules` fold: form the junction from
the last code point of the accumulated result and the first code point of
the next part (`none` embeds the IndexError raised when either string is
empty), rewrite through the sandhi table when the junction has a rule,
otherwise concatenate verbatim. -/
def sandhiStep (rules : SandhiRules) (acc p : Str) : Option Str :=
  match acc.getLast?, p.head? with
  | some lc, some fc =>
    match alookup rules [lc, fc] with
    | some repl => some (acc.dropLast ++ repl ++ p.tail)
    | none => some (acc ++ p)
  | _, _ => none

/-- The fold of `apply_sandhi_rules` over the remaining parts. -/
def sandhiFold (rules : SandhiRules) (acc : Str) : List Str → Option Str
  | [] => some acc
  | p :: ps =>
    match sandhiStep rules acc p with
    | some acc1 => sandhiFold rules acc1 ps
    | none => none

/-- `HindiMorphAnalyzer.apply_sandhi_rules`: for fewer than 2 parts the
input list itself is returned unchanged (not a string); otherwise the
parts are folded left to right through the sandhi table. -/
def apply_sandhi_rules (rules : SandhiRules) (parts : List Str) : Option PyStrOrList :=
  match parts with
  | [] => some (PyStrOrList.lst [])
  | [p] => some (PyStrOrList.lst [p])
  | p :: ps => (sandhiFold rules p ps).map PyStrOrList.str

/-- The analysis record assembled by `HindiMorphAnalyzer.analyze` (and the
shape of stored exception records).  The Python field `prefix` is named
`pfx` here, `prefix_features` is named `pfx_features`. -/
structure AnalysisResult where
  original : Str
  normalized : Str
  root : Str
  root_info : Features
  suffix : Str
  suffix_features : Features
  pfx : Str
  pfx_features : Features
  sandhi_applied : Bool
deriving DecidableEq, Repr

/-- The five tables held by a `HindiMorphAnalyzer` instance.  The Python
field `prefix_rules` is named `pfx_rules`. -/
structure AnalyzerState where
  suffix_rules : List (Str × Features)
  pfx_rules : List (Str × Features)
  sandhi_rules : SandhiRules
  exceptions : List (Str × AnalysisResult)
  dictionary : Dictionary
deriving Repr

/-- `HindiMorphAnalyzer.normalize`: the identity (documented extension
point in the source). -/
def normalize (word : Str) : Str := word

/-- Steps 5 and 6 of `analyze`: the prefix-root sandhi correction
(`final_root = combined[len(prefix):]`) followed by the root-suffix sandhi
correction (`final_root = combined[:-len(suffix)]` when the fused string
differs from plain concatenation).  Each step is guarded by Python
truthiness of the two parts; `none` embeds an uncaught exception. -/
def finalRoot (rules : SandhiRules) (pfx root0 suffix : Str) : Option Str := do
  let r1 ←
    if !pfx.isEmpty && !root0.isEmpty then
      match apply_sandhi_rules rules [pfx, root0] with
      | some (PyStrOrList.str combined) => some (combined.drop pfx.length)
      | _ => none
    else some root0
  if !r1.isEmpty && !suffix.isEmpty then
    match apply_sandhi_rules rules [r1, suffix] with
    | some (PyStrOrList.str combined) =>
      if combined ≠ r1 ++ suffix then some (pySliceToNeg combined suffix.length)
      else some r1
    | _ => none
  else some r1

/-- `self.dictionary.get(final_root, {'category': 'unknown', 'meaning': 'unknown'})`. -/
def lexLookup (dict : Dictionary) (root : Str) : Features :=
  match alookup dict root with
  | some info => info
  | none => [("category", "unknown"), ("meaning", "unknown")]

/-- The non-exception path of `analyze`: normalize, strip a suffix, strip
a prefix from the remaining root, apply the two sandhi corrections, look
the final root up in the lexicon, and assemble the record.  The source
sets `sandhi_applied` to `True if prefix or suffix else False`. -/
def analyzeCore (st : AnalyzerState) (word : Str) : Option AnalysisResult :=
  let normalized := normalize word
  let sres := extract_suffix st.suffix_rules st.dictionary normalized
  let pres := extractPfx st.pfx_rules st.dictionary sres.1
  (finalRoot st.sandhi_rules pres.2.1 pres.1 sres.2.1).map (fun final_root =>
    { original := word
      normalized := normalized
      root := final_root
      root_info := lexLookup st.dictionary final_root
      suffix := sres.2.1
      suffix_features := sres.2.2
      pfx := pres.2.1
      pfx_features := pres.2.2
      sandhi_applied := !pres.2.1.isEmpty || !sres.2.1.isEmpty })

/-- `HindiMorphAnalyzer.analyze`: a word present in the exception table
returns its stored record verbatim; otherwise the rule pipeline runs. -/
def analyze (st : AnalyzerState) (word : Str) : Option AnalysisResult :=
  match alookup st.exceptions word with
  | some record => some record
  | none => analyzeCore st word

/-- The default suffix table of `initialize_default_rules`, in source
insertion order.  Keys are written with Unicode escapes; in order they
render as: ा, े, ों, ी, ियाँ, ियों, ना, ता, ती, ते, या, ई, ए, गा, गी, गे. -/
def defaultSuffixRules : List (Str × Features) :=
  [ (['ा'], [("category", "noun"), ("gender", "masculine"), ("number", "singular"), ("case", "direct")])
  , (['े'], [("category", "noun"), ("gender", "masculine"), ("number", "singular/plural"), ("case", "oblique")])
  , (['ो', 'ं'], [("category", "noun"), ("gender", "masculine"), ("number", "plural"), ("case", "oblique")])
  , (['ी'], [("category", "noun"), ("gender", "feminine"), ("number", "singular"), ("case", "direct")])
  , (['ि', 'य', 'ा', 'ँ'], [("category", "noun"), ("gender", "feminine"), ("number", "plural"), ("case", "direct")])
  , (['ि', 'य', 'ो', 'ं'], [("category", "noun"), ("gender", "feminine"), ("number", "plural"), ("case", "oblique")])
  , (['न', 'ा'], [("category", "verb"), ("form", "infinitive")])
  , (['त', 'ा'], [("category", "verb"), ("tense", "present"), ("aspect", "habitual"), ("gender", "masculine"), ("number", "singular")])
  , (['त', 'ी'], [("category", "verb"), ("tense", "present"), ("aspect", "habitual"), ("gender", "feminine"), ("number", "singular")])
  , (['त', 'े'], [("category", "verb"), ("tense", "present"), ("aspect", "habitual"), ("gender", "masculine"), ("number", "plural")])
  , (['य', 'ा'], [("category", "verb"), ("tense", "past"), ("aspect", "perfective"), ("gender", "masculine"), ("number", "singular")])
  , (['ई'], [("category", "verb"), ("tense", "past"), ("aspect", "perfective"), ("gender", "feminine"), ("number", "singular")])
  , (['ए'], [("category", "verb"), ("tense", "past"), ("aspect", "perfective"), ("gender", "masculine"), ("number", "plural")])
  , (['ग', 'ा'], [("category", "verb"), ("tense", "future"), ("gender", "masculine"), ("number", "singular"), ("person", "third")])
  , (['ग', 'ी'], [("category", "verb"), ("tense", "future"), ("gender", "feminine"), ("number", "singular"), ("person", "third")])
  , (['ग', 'े'], [("category", "verb"), ("tense", "future"), ("gender", "masculine"), ("number", "plural"), ("person", "third")]) ]

/-- The default prefix table of `initialize_default_rules`.  Keys render
as: अ, सु, दुर्, पुनर्. -/
def defaultPfxRules : List (Str × Features) :=
  [ (['अ'], [("meaning", "negation"), ("type", "negative")])
  , (['स', 'ु'], [("meaning", "good"), ("type", "quality")])
  , (['द', 'ु', 'र', '्'], [("meaning", "bad"), ("type", "quality")])
  , (['प', 'ु', 'न', 'र', '्'], [("meaning", "again"), ("type", "repetition")]) ]

/-- The default sandhi table of `initialize_default_rules`: the junctions
ा+अ, ि+आ, ु+आ map to ा, ी, ू. -/
def defaultSandhiRules : SandhiRules :=
  [ (['ा', 'अ'], ['ा'])
  , (['ि', 'आ'], ['ी'])
  , (['ु', 'आ'], ['ू']) ]

/-- The minimal default lexicon of `initialize_minimal_dictionary`, in
source insertion order.  Keys render as: लड़क, लड़की, किताब, घर, पढ़, लिख,
खा, जा, कर, अच्छ, बड़, छोट (the nukta is the combining U+093C). -/
def defaultDictionary : Dictionary :=
  [ (['ल', 'ड', '़', 'क'], [("category", "noun"), ("meaning", "boy"), ("gender", "masculine")])
  , (['ल', 'ड', '़', 'क', 'ी'], [("category", "noun"), ("meaning", "girl"), ("gender", "feminine")])
  , (['क', 'ि', 'त', 'ा', 'ब'], [("category", "noun"), ("meaning", "book"), ("gender", "feminine")])
  , (['घ', 'र'], [("category", "noun"), ("meaning", "house"), ("gender", "masculine")])
  , (['प', 'ढ', '़'], [("category", "verb"), ("meaning", "read")])
  , (['ल', 'ि', 'ख'], [("category", "verb"), ("meaning", "write")])
  , (['ख', 'ा'], [("category", "verb"), ("meaning", "eat")])
  , (['ज', 'ा'], [("category", "verb"), ("meaning", "go")])
  , (['क', 'र'], [("category", "verb"), ("meaning", "do")])
  , (['अ', 'च', '्', 'छ'], [("category", "adjective"), ("meaning", "good")])
  , (['ब', 'ड', '़'], [("category", "adjective"), ("meaning", "big")])
  , (['छ', 'ो', 'ट'], [("category", "adjective"), ("meaning", "small")]) ]

/-- A fresh analyzer constructed with no rule or dictionary path: default
rules, default minimal dictionary, empty exception table. -/
def defaultState : AnalyzerState :=
  { suffix_rules := defaultSuffixRules
    pfx_rules := defaultPfxRules
    sandhi_rules := defaultSandhiRules
    exceptions := []
    dictionary := defaultDictionary }

/-- The serialized content written by `save_rules`: the four rule tables
under their section names (the JSON file layer, `json.dump` followed by
`json.load` of the written file, is embedded as passing this structured
document through unchanged). -/
structure RulesData where
  suffix_rules : List (Str × Features)
  pfx_rules : List (Str × Features)
  sandhi_rules : SandhiRules
  exceptions : List (Str × AnalysisResult)
deriving Repr

/-- What `load_rules` receives from its source: either an unparseable
document (`json.load` raised) or a parsed document in which each of the
four sections may be absent (Python `rules_data.get(section, {})`). -/
inductive RulesSource where
  | malformed : RulesSource
  | parsed : Option (List (Str × Features)) → Option (List (Str × Features)) →
      Option SandhiRules → Option (List (Str × AnalysisResult)) → RulesSource

/-- `HindiMorphAnalyzer.initialize_default_rules` (named `initDefaultRules`
here): overwrites the suffix, prefix, and sandhi tables with the built-in
defaults.  The source does not assign `self.exceptions`, so that table
keeps its previous value. -/
def initDefaultRules (st : AnalyzerState) : AnalyzerState :=
  { st with
    suffix_rules := defaultSuffixRules
    pfx_rules := defaultPfxRules
    sandhi_rules := defaultSandhiRules }

/-- `HindiMorphAnalyzer.load_rules`: on a parsed document, replace each
table with its section (absent sections become `{}`); on a malformed
document, report the error and fall back to `initialize_default_rules`. -/
def load_rules (st : AnalyzerState) (src : RulesSource) : AnalyzerState :=
  match src with
  | RulesSource.malformed => initDefaultRules st
  | RulesSource.parsed s p d e =>
    { st with
      suffix_rules := s.getD []
      pfx_rules := p.getD []
      sandhi_rules := d.getD []
      exceptions := e.getD [] }

/-- `HindiMorphAnalyzer.save_rules`: serialize the four tables. -/
def save_rules (st : AnalyzerState) : RulesData :=
  { suffix_rules := st.suffix_rules
    pfx_rules := st.pfx_rules
    sandhi_rules := st.sandhi_rules
    exceptions := st.exceptions }

/-- Reading back a saved document: every section is present. -/
def RulesData.toSource (d : RulesData) : RulesSource :=
  RulesSource.parsed (some d.suffix_rules) (some d.pfx_rules)
    (some d.sandhi_rules) (some d.exceptions)

/-- The whitespace test of Python `str.split()` (no separator), restricted
to the standard ASCII whitespace characters. -/
def isPySpace (c : Char) : Bool :=
  c = ' ' || c = '\t' || c = '\n' || c = '\x0d' || c = '\x0b' || c = '\x0c'

/-- Helper of `pySplit`: accumulate the current token (reversed). -/
def pySplitAux : List Char → List Char → List Str
  | [], acc => if acc.isEmpty then [] else [acc.reverse]
  | c :: cs, acc =>
    if isPySpace c then
      if acc.isEmpty then pySplitAux cs [] else acc.reverse :: pySplitAux cs []
    else pySplitAux cs (c :: acc)

/-- Python `text.split()`: split on runs of whitespace, dropping empty
tokens. -/
def pySplit (text : Str) : List Str := pySplitAux text []

/-- The fixed punctuation class of `process_text`
(`re.sub(r'[।,;.!?()[\]{}:"\'-]', '', word)` deletes these characters at
every position of the token). -/
def isPunctChar (c : Char) : Bool :=
  c = '।' || c = ',' || c = ';' || c = '.' || c = '!' || c = '?' ||
  c = '(' || c = ')' || c = '[' || c = ']' || c = '\x7b' || c = '\x7d' ||
  c = ':' || c = '"' || c = '\x27' || c = '-'

/-- The punctuation removal of `process_text`: delete every punctuation
character, wherever it occurs in the token. -/
def removePunct (w : Str) : Str := w.filter (fun c => !isPunctChar c)

/-- The analysis loop of `process_text` over the split tokens: clean each
token, skip tokens that become empty, analyze the rest in order. -/
def processWords (st : AnalyzerState) : List Str → Option (List AnalysisResult)
  | [] => some []
  | w :: ws =>
    let clean_word := removePunct w
    if clean_word.isEmpty then processWords st ws
    else do
      let a ← analyze st clean_word
      let rest ← processWords st ws
      some (a :: rest)

/-- `HindiMorphAnalyzer.process_text`: whitespace tokenization followed by
per-token cleaning and analysis. -/
def process_text (st : AnalyzerState) (text : Str) : Option (List AnalysisResult) :=
  processWords st (pySplit text)

/-- Modelled from the spec: the spec's root-plausibility invariant speaks
of extended grapheme clusters, a notion absent from the source (which
counts code points).  A Devanagari combining character — candrabindu,
anusvara, visarga (U+0900–U+0903), vowel-sign/nukta marks (U+093A–U+093C),
dependent vowel signs and virama (U+093E–U+094F), stress marks
(U+0951–U+0957), and vocalic-mark signs (U+0962–U+0963) — attaches to the
preceding cluster, per the Extend/SpacingMark rules of UAX #29. -/
def isDevCombining (c : Char) : Bool :=
  (0x0900 ≤ c.toNat && c.toNat ≤ 0x0903) ||
  (0x093A ≤ c.toNat && c.toNat ≤ 0x093C) ||
  (0x093E ≤ c.toNat && c.toNat ≤ 0x094F) ||
  (0x0951 ≤ c.toNat && c.toNat ≤ 0x0957) ||
  (0x0962 ≤ c.toNat && c.toNat ≤ 0x0963)

/-- Modelled from the spec: the number of extended grapheme clusters of a
Devanagari string — the first code point opens a cluster, and every later
non-combining code point opens a new one. -/
def graphemeCount : Str → Nat
  | [] => 0
  | _ :: rest => 1 + (rest.filter (fun c => !isDevCombining c)).length

/-- Modelled from the spec: the first extended grapheme cluster of a
Devanagari string — the first code point together with the combining
characters that follow it (consistent with `graphemeCount`). -/
def firstGrapheme : Str → Str
  | [] => []
  | c :: rest => c :: rest.takeWhile isDevCombining

/-- Modelled from the spec: the last extended grapheme cluster of a
Devanagari string — the trailing combining characters together with the
non-combining code point that precedes them (consistent with
`graphemeCount`; a string of combining characters only is a single
degenerate cluster). -/
def lastGrapheme (s : Str) : Str :=
  let revMarks := s.reverse.takeWhile isDevCombining
  (revMarks ++ (s.reverse.drop revMarks.length).take 1).reverse

/-- Ordering by descending key length, the invariant maintained by
`sortByLenDesc`. -/
def LenGE (a b : Str × Features) : Prop := b.1.length ≤ a.1.length

theorem mem_insertByLenDesc {q p : Str × Features} {l : List (Str × Features)} :
    q ∈ insertByLenDesc p l ↔ q = p ∨ q ∈ l := by
  induction l with
  | nil => simp [insertByLenDesc]
  | cons r rs ih =>
    by_cases h : p.1.length < r.1.length
    · simp only [insertByLenDesc, if_pos h, List.mem_cons, ih]
      tauto
    · simp only [insertByLenDesc, if_neg h, List.mem_cons]

theorem mem_sortByLenDesc {q : Str × Features} {l : List (Str × Features)} :
    q ∈ sortByLenDesc l ↔ q ∈ l := by
  induction l with
  | nil => simp [sortByLenDesc]
  | cons p ps ih =>
    simp only [sortByLenDesc, mem_insertByLenDesc, ih, List.mem_cons]

theorem pairwise_insertByLenDesc {p : Str × Features} {l : List (Str × Features)}
    (h : l.Pairwise LenGE) : (insertByLenDesc p l).Pairwise LenGE := by
  induction l with
  | nil => simp [insertByLenDesc]
  | cons q qs ih =>
    rw [List.pairwise_cons] at h
    obtain ⟨hq, hqs⟩ := h
    by_cases hlt : p.1.length < q.1.length
    · simp only [insertByLenDesc, if_pos hlt]
      rw [List.pairwise_cons]
      refine ⟨fun r hr => ?_, ih hqs⟩
      rcases mem_insertByLenDesc.1 hr with rfl | hr2
      · exact le_of_lt hlt
      · exact hq r hr2
    · simp only [insertByLenDesc, if_neg hlt]
      rw [List.pairwise_cons]
      refine ⟨fun r hr => ?_, List.pairwise_cons.2 ⟨hq, hqs⟩⟩
      rcases List.mem_cons.1 hr with rfl | hr2
      · exact le_of_not_lt hlt
      · exact le_trans (hq r hr2) (le_of_not_lt hlt)

theorem pairwise_sortByLenDesc (l : List (Str × Features)) :
    (sortByLenDesc l).Pairwise LenGE := by
  induction l with
  | nil => simp [sortByLenDesc]
  | cons p ps ih => exact pairwise_insertByLenDesc ih

theorem findSuffix_eq_none {dict : Dictionary} {word : Str} {l : List (Str × Features)}
    (h : ∀ p ∈ l, suffixAccepts dict word p = false) :
    findSuffix dict word l = none := by
  induction l with
  | nil => rfl
  | cons q qs ih =>
    obtain ⟨s, f⟩ := q
    have hq := h (s, f) (List.mem_cons_self _ _)
    simp only [suffixAccepts, Bool.and_eq_false_iff] at hq
    have ihr := ih (fun p hp => h p (List.mem_cons_of_mem _ hp))
    unfold findSuffix
    rcases hq with hq | hq
    · simp [hq, ihr]
    · by_cases hs : s.isSuffixOf word
      · simp [hs, hq, ihr]
      · simp [hs, ihr]

theorem findPfx_eq_none {dict : Dictionary} {word : Str} {l : List (Str × Features)}
    (h : ∀ p ∈ l, pfxAccepts dict word p = false) :
    findPfx dict word l = none := by
  induction l with
  | nil => rfl
  | cons q qs ih =>
    obtain ⟨s, f⟩ := q
    have hq := h (s, f) (List.mem_cons_self _ _)
    simp only [pfxAccepts, Bool.and_eq_false_iff] at hq
    have ihr := ih (fun p hp => h p (List.mem_cons_of_mem _ hp))
    unfold findPfx
    rcases hq with hq | hq
    · simp [hq, ihr]
    · by_cases hs : s.isPrefixOf word
      · simp [hs, hq, ihr]
      · simp [hs, ihr]

theorem findSuffix_accept {dict : Dictionary} {word root s : Str} {f : Features}
    {l : List (Str × Features)} (h : findSuffix dict word l = some (root, s, f)) :
    acceptRoot dict root = true := by
  induction l with
  | nil => exact absurd h (by simp [findSuffix])
  | cons q qs ih =>
    obtain ⟨s1, f1⟩ := q
    unfold findSuffix at h
    by_cases hs : s1.isSuffixOf word
    · simp only [hs, if_true] at h
      by_cases hr : acceptRoot dict (pySliceToNeg word s1.length)
      · simp only [hr, if_true, Option.some_inj] at h
        cases h
        exact hr
      · simp only [hr] at h
        exact ih h
    · simp only [hs] at h
      exact ih h

theorem findPfx_accept {dict : Dictionary} {word root s : Str} {f : Features}
    {l : List (Str × Features)} (h : findPfx dict word l = some (root, s, f)) :
    acceptRoot dict root = true := by
  induction l with
  | nil => exact absurd h (by simp [findPfx])
  | cons q qs ih =>
    obtain ⟨s1, f1⟩ := q
    unfold findPfx at h
    by_cases hs : s1.isPrefixOf word
    · simp only [hs, if_true] at h
      by_cases hr : acceptRoot dict (word.drop s1.length)
      · simp only [hr, if_true, Option.some_inj] at h
        cases h
        exact hr
      · simp only [hr] at h
        exact ih h
    · simp only [hs] at h
      exact ih h

theorem findSuffix_longest {dict : Dictionary} {word s1 : Str} {f1 : Features}
    {l : List (Str × Features)} (hp : l.Pairwise LenGE) (hmem : (s1, f1) ∈ l)
    (hacc : suffixAccepts dict word (s1, f1) = true) :
    ∃ root s f, findSuffix dict word l = some (root, s, f) ∧ s1.length ≤ s.length := by
  induction l with
  | nil => cases hmem
  | cons q qs ih =>
    rw [List.pairwise_cons] at hp
    obtain ⟨hq, hqs⟩ := hp
    obtain ⟨s0, f0⟩ := q
    by_cases hs : s0.isSuffixOf word
    · by_cases hr : acceptRoot dict (pySliceToNeg word s0.length)
      · refine ⟨pySliceToNeg word s0.length, s0, f0, ?_, ?_⟩
        · unfold findSuffix
          simp [hs, hr]
        · rcases List.mem_cons.1 hmem with heq | hmem2
          · cases heq
            exact le_refl _
          · exact hq (s1, f1) hmem2
      · have hne : (s1, f1) ∈ qs := by
          rcases List.mem_cons.1 hmem with heq | hmem2
          · cases heq
            rw [suffixAccepts] at hacc
            simp only [hs, Bool.true_and] at hacc
            exact absurd hacc hr
          · exact hmem2
        obtain ⟨root, s, f, hfind, hlen⟩ := ih hqs hne
        refine ⟨root, s, f, ?_, hlen⟩
        unfold findSuffix
        simp [hs, hr, hfind]
    · have hne : (s1, f1) ∈ qs := by
        rcases List.mem_cons.1 hmem with heq | hmem2
        · cases heq
          rw [suffixAccepts] at hacc
          simp only [hs, Bool.false_and] at hacc
          cases hacc
        · exact hmem2
      obtain ⟨root, s, f, hfind, hlen⟩ := ih hqs hne
      refine ⟨root, s, f, ?_, hlen⟩
      unfold findSuffix
      simp [hs, hfind]

theorem sandhiStep_isSome (rules : SandhiRules) {a b : Str} (ha : a ≠ []) (hb : b ≠ []) :
    (sandhiStep rules a b).isSome = true := by
  obtain ⟨lc, hla⟩ : ∃ x, a.getLast? = some x := by
    cases h : a.getLast? with
    | none => exact absurd (List.getLast?_eq_none_iff.1 h) ha
    | some x => exact ⟨x, rfl⟩
  obtain ⟨fc, hhb⟩ : ∃ x, b.head? = some x := by
    cases h : b.head? with
    | none => exact absurd (List.head?_eq_none_iff.1 h) hb
    | some x => exact ⟨x, rfl⟩
  unfold sandhiStep
  rw [hla, hhb]
  cases h : alookup rules [lc, fc] <;> simp [h]

theorem apply_sandhi_two (rules : SandhiRules) {a b : Str} (ha : a ≠ []) (hb : b ≠ []) :
    ∃ c, apply_sandhi_rules rules [a, b] = some (PyStrOrList.str c) := by
  obtain ⟨c, hc⟩ := Option.isSome_iff_exists.1 (sandhiStep_isSome rules ha hb)
  exact ⟨c, by simp [apply_sandhi_rules, sandhiFold, hc]⟩

theorem finalRoot_isSome (rules : SandhiRules) (pfx root0 suffix : Str) :
    (finalRoot rules pfx root0 suffix).isSome = true := by
  have step2 : ∀ r1 : Str,
      (if !r1.isEmpty && !suffix.isEmpty then
        match apply_sandhi_rules rules [r1, suffix] with
        | some (PyStrOrList.str combined) =>
          if combined ≠ r1 ++ suffix then some (pySliceToNeg combined suffix.length)
          else some r1
        | _ => none
      else some r1).isSome = true := by
    intro r1
    by_cases hg : !r1.isEmpty && !suffix.isEmpty
    · obtain ⟨hr1, hsf⟩ := Bool.and_eq_true_iff.1 hg
      obtain ⟨c, hc⟩ := apply_sandhi_two rules
        (by simpa [List.isEmpty_iff] using hr1) (by simpa [List.isEmpty_iff] using hsf)
      rw [if_pos hg, hc]
      by_cases hne : c ≠ r1 ++ suffix <;> simp [hne]
    · simp [hg]
  unfold finalRoot
  by_cases hg : !pfx.isEmpty && !root0.isEmpty
  · obtain ⟨hpf, hr0⟩ := Bool.and_eq_true_iff.1 hg
    obtain ⟨c, hc⟩ := apply_sandhi_two rules
      (by simpa [List.isEmpty_iff] using hpf) (by simpa [List.isEmpty_iff] using hr0)
    rw [if_pos hg, hc]
    simpa [Option.bind] using step2 (c.drop pfx.length)
  · rw [if_neg hg]
    simpa [Option.bind] using step2 root0

theorem analyze_isSome (st : AnalyzerState) (word : Str) :
    (analyze st word).isSome = true := by
  unfold analyze
  cases hexc : alookup st.exceptions word with
  | some record => rfl
  | none =>
    unfold analyzeCore
    simpa [Option.isSome_map] using finalRoot_isSome _ _ _ _

/-- An arbitrary record used only as the (unreachable) default when
extracting the value of a never-`none` analysis. -/
def emptyRecord : AnalysisResult :=
  { original := [], normalized := [], root := [], root_info := [], suffix := [],
    suffix_features := [], pfx := [], pfx_features := [], sandhi_applied := false }

/-- The total analysis function: `analyze` never raises, so its value can
be extracted. -/
def analyzeD (st : AnalyzerState) (word : Str) : AnalysisResult :=
  (analyze st word).getD emptyRecord

theorem analyze_eq_some_analyzeD (st : AnalyzerState) (word : Str) :
    analyze st word = some (analyzeD st word) := by
  obtain ⟨r, hr⟩ := Option.isSome_iff_exists.1 (analyze_isSome st word)
  rw [analyzeD, hr]
  rfl

theorem processWords_eq (st : AnalyzerState) (ws : List Str) :
    processWords st ws =
      some (((ws.map removePunct).filter (fun w => !w.isEmpty)).map (analyzeD st)) := by
  induction ws with
  | nil => rfl
  | cons w rest ih =>
    unfold processWords
    cases h : (removePunct w).isEmpty with
    | true => simp [h, ih]
    | false => simp [h, ih, analyze_eq_some_analyzeD, Option.bind]

/-- The word कता (no lexicon entry; ends in both the suffix keys ता and ा,
but stripping ता would leave the implausible 1-code-point root क). -/
def wKataa : Str := ['क', 'त', 'ा']

/-- The word काता: stripping the suffix ता leaves का, two code points but a
single grapheme cluster, and not a lexicon key. -/
def wKaataa : Str := ['क', 'ा', 'त', 'ा']

/-- The word कखग: out of vocabulary, matches no suffix and no prefix rule. -/
def wUnknown : Str := ['क', 'ख', 'ग']

/-- The word क, used as an exception-table key. -/
def wKa : Str := ['क']

/-- A stored exception record whose `sandhi_applied` flag is true although
both of its affix fields are empty. -/
def excRecord : AnalysisResult :=
  { original := wKa, normalized := wKa, root := wKa,
    root_info := [("category", "pronoun"), ("meaning", "stored")],
    suffix := [], suffix_features := [], pfx := [], pfx_features := [],
    sandhi_applied := true }

/-- A default analyzer whose exception table holds one entry. -/
def stExc : AnalyzerState :=
  { defaultState with exceptions := [(wKa, excRecord)] }

/-- The record `analyze` produces for कता with the default tables. -/
def recKataa : AnalysisResult :=
  { original := wKataa, normalized := wKataa, root := ['क', 'त'],
    root_info := [("category", "unknown"), ("meaning", "unknown")],
    suffix := ['ा'],
    suffix_features := [("category", "noun"), ("gender", "masculine"),
      ("number", "singular"), ("case", "direct")],
    pfx := [], pfx_features := [], sandhi_applied := true }

/-- C1: for every word that is a key of the exception table, `analyze`
returns exactly the stored analysis record, with no rule processing,
regardless of the contents of the suffix, prefix and sandhi tables and of
the lexicon (the state `st` is arbitrary). -/
theorem exception_shortcircuit (st : AnalyzerState) (word : Str) (record : AnalysisResult)
    (h : alookup st.exceptions word = some record) :
    analyze st word = some record := by
  unfold analyze
  rw [h]

/-- Witness for C1 at a concrete exception table. -/
theorem exception_shortcircuit_witness : analyze stExc wKa = some excRecord :=
  exception_shortcircuit stExc wKa excRecord (by decide)

/-- C2 counterexample: on the word कता with the default tables, the suffix
keys ता and ा both match the word's end and ता is strictly longer, yet the
stripper selects ा (clipping कता to क with the longer key would leave an
implausible root, so the loop moves on to a shorter key). -/
theorem longest_match_counterexample :
    (alookup defaultSuffixRules ['त', 'ा']).isSome = true ∧
    (alookup defaultSuffixRules ['ा']).isSome = true ∧
    List.isSuffixOf ['त', 'ा'] wKataa = true ∧
    List.isSuffixOf ['ा'] wKataa = true ∧
    (['ा'] : Str).length < (['त', 'ा'] : Str).length ∧
    (extract_suffix defaultSuffixRules defaultDictionary wKataa).2.1 = ['ा'] := by
  decide

/-- C2 (amended): if a suffix key `s1` matches the word's end AND its
candidate root passes the plausibility check (in the lexicon, or at least
2 code points), then the stripper never selects a strictly shorter suffix
`s2`; selection is a deterministic function of the tables and the word. -/
theorem longest_match_amended (rules : List (Str × Features)) (dict : Dictionary)
    (word s1 s2 : Str) (f1 : Features) (hmem : (s1, f1) ∈ rules)
    (hacc : suffixAccepts dict word (s1, f1) = true) (hlen : s2.length < s1.length) :
    (extract_suffix rules dict word).2.1 ≠ s2 := by
  obtain ⟨root, s, f, hfind, hslen⟩ :=
    findSuffix_longest (pairwise_sortByLenDesc rules) (mem_sortByLenDesc.2 hmem) hacc
  unfold extract_suffix
  rw [hfind]
  show s ≠ s2
  intro heq
  rw [heq] at hslen
  exact absurd hlen (not_lt.2 hslen)

/-- Witness for the amended C2: on पढ़ता the key ता leaves the lexicon root
पढ़, so the shorter matching key ा is not selected. -/
theorem longest_match_amended_witness :
    (extract_suffix defaultSuffixRules defaultDictionary ['प', 'ढ', '़', 'त', 'ा']).2.1 ≠
      (['ा'] : Str) :=
  longest_match_amended defaultSuffixRules defaultDictionary ['प', 'ढ', '़', 'त', 'ा']
    ['त', 'ा'] ['ा']
    [("category", "verb"), ("tense", "present"), ("aspect", "habitual"),
      ("gender", "masculine"), ("number", "singular")]
    (by decide) (by decide) (by decide)

/-- C3 counterexample: on काता the default stripper matches ता and returns
the root का — two code points, hence accepted — which is a single grapheme
cluster (क plus the dependent vowel sign ा) and is not a lexicon key. -/
theorem root_plausibility_counterexample :
    extract_suffix defaultSuffixRules defaultDictionary wKaataa =
      (['क', 'ा'], ['त', 'ा'],
        [("category", "verb"), ("tense", "present"), ("aspect", "habitual"),
          ("gender", "masculine"), ("number", "singular")]) ∧
    graphemeCount ['क', 'ा'] = 1 ∧
    alookup defaultDictionary ['क', 'ा'] = none := by
  decide

/-- C3 (amended): the strippers never return a root candidate of 0 or 1
CODE POINTS with a matched affix unless that exact candidate is a lexicon
key (the source measures `len(potential_root)` in code points, not
grapheme clusters); and when no rule matches under this constraint the
original word is returned with an empty affix and empty feature set. -/
theorem root_plausibility_amended :
    (∀ rules dict word root s f, extract_suffix rules dict word = (root, s, f) → s ≠ [] →
      ((alookup dict root).isSome = true ∨ 2 ≤ root.length)) ∧
    (∀ rules dict word root s f, extractPfx rules dict word = (root, s, f) → s ≠ [] →
      ((alookup dict root).isSome = true ∨ 2 ≤ root.length)) ∧
    (∀ rules dict word, (∀ p ∈ rules, suffixAccepts dict word p = false) →
      extract_suffix rules dict word = (word, [], [])) ∧
    (∀ rules dict word, (∀ p ∈ rules, pfxAccepts dict word p = false) →
      extractPfx rules dict word = (word, [], [])) := by
  refine ⟨?_, ?_, ?_, ?_⟩
  · intro rules dict word root s f h hs
    unfold extract_suffix at h
    cases hf : findSuffix dict word (sortByLenDesc rules) with
    | some r =>
      rw [hf] at h
      cases h
      have hacc := findSuffix_accept hf
      rw [acceptRoot, Bool.or_eq_true] at hacc
      rcases hacc with hacc | hacc
      · exact Or.inl hacc
      · exact Or.inr (of_decide_eq_true hacc)
    | none =>
      rw [hf] at h
      cases h
      exact absurd rfl hs
  · intro rules dict word root s f h hs
    unfold extractPfx at h
    cases hf : findPfx dict word (sortByLenDesc rules) with
    | some r =>
      rw [hf] at h
      cases h
      have hacc := findPfx_accept hf
      rw [acceptRoot, Bool.or_eq_true] at hacc
      rcases hacc with hacc | hacc
      · exact Or.inl hacc
      · exact Or.inr (of_decide_eq_true hacc)
    | none =>
      rw [hf] at h
      cases h
      exact absurd rfl hs
  · intro rules dict word h
    unfold extract_suffix
    rw [findSuffix_eq_none (fun p hp => h p (mem_sortByLenDesc.1 hp))]
  · intro rules dict word h
    unfold extractPfx
    rw [findPfx_eq_none (fun p hp => h p (mem_sortByLenDesc.1 hp))]

/-- Witness for the amended C3: an accepted suffix strip, an accepted
prefix strip, and the no-match fallback for both strippers. -/
theorem root_plausibility_amended_witness :
    ((alookup defaultDictionary ['क', 'त']).isSome = true ∨ 2 ≤ (['क', 'त'] : Str).length) ∧
    ((alookup defaultDictionary ['च', 'छ']).isSome = true ∨ 2 ≤ (['च', 'छ'] : Str).length) ∧
    extract_suffix defaultSuffixRules defaultDictionary wUnknown = (wUnknown, [], []) ∧
    extractPfx defaultPfxRules defaultDictionary wUnknown = (wUnknown, [], []) :=
  ⟨root_plausibility_amended.1 defaultSuffixRules defaultDictionary wKataa
      ['क', 'त'] ['ा']
      [("category", "noun"), ("gender", "masculine"), ("number", "singular"), ("case", "direct")]
      (by decide) (by decide),
   root_plausibility_amended.2.1 defaultPfxRules defaultDictionary ['अ', 'च', 'छ']
      ['च', 'छ'] ['अ'] [("meaning", "negation"), ("type", "negative")]
      (by decide) (by decide),
   root_plausibility_amended.2.2.1 defaultSuffixRules defaultDictionary wUnknown (by decide),
   root_plausibility_amended.2.2.2 defaultPfxRules defaultDictionary wUnknown (by decide)⟩

/-- C4 counterexample: a stored exception record with `sandhi_applied`
true and both affix fields empty is returned verbatim by `analyze`, so the
claimed invariant fails for exception-table results. -/
theorem sandhi_applied_counterexample :
    analyze stExc wKa = some excRecord ∧
    excRecord.sandhi_applied = true ∧ excRecord.pfx = [] ∧ excRecord.suffix = [] := by
  decide

/-- C4 (amended): for every result produced by the rule pipeline — i.e.
for every analyzed word that is NOT an exception-table key —
`sandhi_applied` is true iff the prefix or the suffix field is non-empty.
Exception-table results are returned verbatim and need not satisfy it. -/
theorem sandhi_applied_iff_affix (st : AnalyzerState) (word : Str) (r : AnalysisResult)
    (hexc : alookup st.exceptions word = none) (h : analyze st word = some r) :
    r.sandhi_applied = true ↔ (r.pfx ≠ [] ∨ r.suffix ≠ []) := by
  unfold analyze at h
  rw [hexc] at h
  unfold analyzeCore at h
  obtain ⟨fr, hfr, hrec⟩ := Option.map_eq_some'.1 h
  subst hrec
  simp [Bool.or_eq_true, Bool.not_eq_true', List.isEmpty_iff, List.isEmpty_eq_false]

/-- Witness for the amended C4 at the default analyzer on कता. -/
theorem sandhi_applied_iff_affix_witness :
    recKataa.sandhi_applied = true ↔ (recKataa.pfx ≠ [] ∨ recKataa.suffix ≠ []) :=
  sandhi_applied_iff_affix defaultState wKataa recKataa (by decide) (by decide)

/-- C5 counterexample: with the default sandhi table, for a = का and
b = अ the junction formed from the last GRAPHEME of a and the first
grapheme of b is काअ, which is absent from the table (its keys are
2-code-point strings); yet fuse([a, b]) is not the plain concatenation
काअ — the code keys the table on the last/first CODE POINTS, the junction
ा+अ fires, and the result is का. -/
theorem fuse_grapheme_junction_counterexample :
    lastGrapheme ['क', 'ा'] = ['क', 'ा'] ∧
    firstGrapheme ['अ'] = ['अ'] ∧
    alookup defaultSandhiRules (lastGrapheme ['क', 'ा'] ++ firstGrapheme ['अ']) = none ∧
    apply_sandhi_rules defaultSandhiRules [['क', 'ा'], ['अ']] =
      some (PyStrOrList.str ['क', 'ा']) ∧
    (['क', 'ा'] : Str) ≠ ['क', 'ा'] ++ ['अ'] := by
  decide

/-- C5 (amended): for all non-empty strings `a` and `b`, if the junction
key formed from the last CODE POINT of `a` and the first CODE POINT of `b`
has no sandhi rule, then fusing `[a, b]` is plain concatenation (the
source reads `result[-1]` and `parts[i][0]`, single code points, so the
junction is a 2-code-point key, not a 2-grapheme one). -/
theorem fuse_nonmatching_junction (rules : SandhiRules) (a b : Str) (lc fc : Char)
    (hla : a.getLast? = some lc) (hhb : b.head? = some fc)
    (hj : alookup rules [lc, fc] = none) :
    apply_sandhi_rules rules [a, b] = some (PyStrOrList.str (a ++ b)) := by
  simp [apply_sandhi_rules, sandhiFold, sandhiStep, hla, hhb, hj]

/-- Witness for C5: the junction ख+ग has no default sandhi rule. -/
theorem fuse_nonmatching_junction_witness :
    apply_sandhi_rules defaultSandhiRules [['क', 'ख'], ['ग']] =
      some (PyStrOrList.str (['क', 'ख'] ++ ['ग'])) :=
  fuse_nonmatching_junction defaultSandhiRules ['क', 'ख'] ['ग'] 'ख' 'ग'
    (by decide) (by decide) (by decide)

/-- C6: `analyze` is total — for every state and every input word
(including the empty string) it returns a result record and never fails —
and an out-of-vocabulary word that is no exception, has no lexicon entry,
and matches no affix rule under the plausibility constraint yields the
original word as root with empty affixes, an "unknown" lexicon record, and
`sandhi_applied` false. -/
theorem analyze_total_and_unknown :
    (∀ st word, (analyze st word).isSome = true) ∧
    (∀ st word,
      alookup st.exceptions word = none →
      (∀ p ∈ st.suffix_rules, suffixAccepts st.dictionary word p = false) →
      (∀ p ∈ st.pfx_rules, pfxAccepts st.dictionary word p = false) →
      alookup st.dictionary word = none →
      analyze st word = some
        { original := word, normalized := word, root := word,
          root_info := [("category", "unknown"), ("meaning", "unknown")],
          suffix := [], suffix_features := [], pfx := [], pfx_features := [],
          sandhi_applied := false }) := by
  constructor
  · exact analyze_isSome
  · intro st word hexc hsfx hpfx hdict
    have hs : extract_suffix st.suffix_rules st.dictionary word = (word, [], []) := by
      unfold extract_suffix
      rw [findSuffix_eq_none (fun p hp => hsfx p (mem_sortByLenDesc.1 hp))]
    have hp : extractPfx st.pfx_rules st.dictionary word = (word, [], []) := by
      unfold extractPfx
      rw [findPfx_eq_none (fun p hp => hpfx p (mem_sortByLenDesc.1 hp))]
    unfold analyze
    rw [hexc]
    show analyzeCore st word = _
    simp only [analyzeCore, normalize, hs, hp]
    simp [finalRoot, lexLookup, hdict, Bool.and_false, Option.bind]

/-- Witness for C6 at the default analyzer on the unknown word कखग. -/
theorem analyze_total_and_unknown_witness :
    (analyze defaultState wUnknown).isSome = true ∧
    analyze defaultState wUnknown = some
      { original := wUnknown, normalized := wUnknown, root := wUnknown,
        root_info := [("category", "unknown"), ("meaning", "unknown")],
        suffix := [], suffix_features := [], pfx := [], pfx_features := [],
        sandhi_applied := false } :=
  ⟨analyze_total_and_unknown.1 defaultState wUnknown,
   analyze_total_and_unknown.2 defaultState wUnknown
     (by decide) (by decide) (by decide) (by decide)⟩

/-- C7: saving the built-in default rule set with `save_rules` and loading
the saved document back with `load_rules` reproduces all four tables,
whatever state the loading analyzer started in. -/
theorem rules_roundtrip (st : AnalyzerState) :
    (load_rules st (save_rules defaultState).toSource).suffix_rules =
        defaultState.suffix_rules ∧
    (load_rules st (save_rules defaultState).toSource).pfx_rules = defaultState.pfx_rules ∧
    (load_rules st (save_rules defaultState).toSource).sandhi_rules =
        defaultState.sandhi_rules ∧
    (load_rules st (save_rules defaultState).toSource).exceptions = defaultState.exceptions :=
  ⟨rfl, rfl, rfl, rfl⟩

/-- C8 counterexample: loading a malformed source into an analyzer whose
exception table is non-empty leaves that stale exception table in place —
the fallback `initialize_default_rules` never assigns `self.exceptions`,
so the claimed all-four-tables default does not happen. -/
theorem malformed_load_counterexample :
    (load_rules stExc RulesSource.malformed).exceptions = [(wKa, excRecord)] ∧
    (load_rules stExc RulesSource.malformed).exceptions ≠ ([] : List (Str × AnalysisResult)) := by
  refine ⟨rfl, ?_⟩
  decide

/-- C8 (amended): on a malformed source, `load_rules` falls back to the
built-in defaults for the suffix, prefix, and sandhi tables only; the
exception table (and the dictionary) retain their previous values. -/
theorem load_rules_malformed_amended (st : AnalyzerState) :
    load_rules st RulesSource.malformed =
      { st with
        suffix_rules := defaultSuffixRules
        pfx_rules := defaultPfxRules
        sandhi_rules := defaultSandhiRules } :=
  rfl

/-- C9: for a sequence of 0 or 1 parts, `apply_sandhi_rules` returns the
input LIST unchanged — not a string: `fuse([s])` is the one-element list
`[s]`, which is never equal to a string value, contradicting the declared
`fuse(parts) -> string` contract. -/
theorem fuse_single_part_returns_list :
    (∀ rules : SandhiRules, ∀ s : Str,
      apply_sandhi_rules rules [s] = some (PyStrOrList.lst [s])) ∧
    (∀ rules : SandhiRules, apply_sandhi_rules rules [] = some (PyStrOrList.lst [])) ∧
    (∀ t : Str, PyStrOrList.lst [['अ']] ≠ PyStrOrList.str t) :=
  ⟨fun _ _ => rfl, fun _ => rfl, fun _ h => PyStrOrList.noConfusion h⟩

/-- C10: `process_text` splits on whitespace, deletes the fixed
punctuation characters from every position of each token (so an interior
hyphen joins the surrounding fragments into one word), drops tokens that
become empty, and analyzes the surviving tokens in input order, one result
each. -/
theorem process_text_tokenization :
    (∀ st text, process_text st text =
      some ((((pySplit text).map removePunct).filter (fun w => !w.isEmpty)).map (analyzeD st))) ∧
    removePunct ['क', '-', 'ख'] = ['क', 'ख'] :=
  ⟨fun st text => processWords_eq st (pySplit text), by decide⟩

end HindiMorph
